import Mathlib

/-!
Formal model of the 2D tile-engine's core subsystems, embedded from the Rust
source: the swept-AABB collision solver (`src/utils/colliders.rs` with the
math primitives from `src/utils/math/`), the hitbox chunk index, the
per-in-flight-slot uniform buffer (`src/graphics/bindable/uniform.rs`), the
tile animation clock (`src/drawables/tiles/tilemap.rs`), the call-site keyed
shared-part cache (`src/graphics/drawable.rs`), the texture cache
(`src/graphics/bindable/texture.rs`) and the frame command recorder
(`src/graphics.rs`).

Machine `f32` values are modelled as exact rationals (`ℚ`); the concrete
inputs exercised below keep every source computation exact, so the rational
model evaluates the same algorithm the float code runs.  `NotNan<f32>`
(NaN-free floats) are rationals; a raw, possibly-NaN `f32` at the validation
boundary is modelled as `Option ℚ` with `none` for NaN.  Rust `HashMap` /
`HashSet` state is modelled by association lists / duplicate-free lists.
-/

namespace Colliders

/-- `Vec2` from `src/utils/math/vec2.rs`: a pair of `f32` components. -/
structure Vec2 where
  x : ℚ
  y : ℚ
deriving DecidableEq

def Vec2.add (a b : Vec2) : Vec2 := ⟨a.x + b.x, a.y + b.y⟩

def Vec2.sub (a b : Vec2) : Vec2 := ⟨a.x - b.x, a.y - b.y⟩

def Vec2.neg (a : Vec2) : Vec2 := ⟨-a.x, -a.y⟩

/-- Scalar multiplication `k * v` (`impl Mul<Vec2> for f32`). -/
def Vec2.smul (k : ℚ) (v : Vec2) : Vec2 := ⟨k * v.x, k * v.y⟩

def Vec2.dot (a b : Vec2) : ℚ := a.x * b.x + a.y * b.y

def Vec2.cross (a b : Vec2) : ℚ := a.x * b.y - a.y * b.x

def Vec2.absSquared (v : Vec2) : ℚ := v.x * v.x + v.y * v.y

/-- Integer square root by bounded search, auxiliary for `ratSqrt`. -/
def natSqrt (n : ℕ) : ℕ := ((List.range (n + 1)).filter fun k => k * k ≤ n).foldl max 0

/-- Exact square root on `ℚ`, agreeing with the source's `f32::sqrt` on the
perfect squares that the concrete queries below produce. -/
def ratSqrt (q : ℚ) : ℚ := (natSqrt q.num.toNat : ℚ) / (natSqrt q.den : ℚ)

/-- `Vec2::abs`: euclidean length, `sqrt (x*x + y*y)`. -/
def Vec2.length (v : Vec2) : ℚ := ratSqrt v.absSquared

/-- `Vec2::normalized`: `self / self.abs()`. -/
def Vec2.normalized (v : Vec2) : Vec2 := ⟨v.x / v.length, v.y / v.length⟩

/-- 2x2 row matrix from `src/utils/math/matrix.rs`. -/
structure Matrix where
  r0 : Vec2
  r1 : Vec2
deriving DecidableEq

/-- `Vec2::apply_matrix`: `(rows[0].dot(v), rows[1].dot(v))`. -/
def Vec2.applyMatrix (v : Vec2) (m : Matrix) : Vec2 := ⟨m.r0.dot v, m.r1.dot v⟩

/-- The source compares `det.abs()` against `f32::EPSILON = 2^-23`. -/
def f32Epsilon : ℚ := 1 / 2 ^ 23

/-- `Matrix::inverse`: explicit 2x2 inverse, `None` when `|det| < EPSILON`. -/
def Matrix.inverse (m : Matrix) : Option Matrix :=
  let a := m.r0.x
  let b := m.r0.y
  let c := m.r1.x
  let d := m.r1.y
  let det := a * d - b * c
  if |det| < f32Epsilon then none
  else
    let invDet := 1 / det
    some ⟨⟨d * invDet, -b * invDet⟩, ⟨-c * invDet, a * invDet⟩⟩

/-- `Line` from `src/utils/math/line.rs`: start point `p` and direction `d`. -/
structure Line where
  p : Vec2
  d : Vec2
deriving DecidableEq

def Line.fromStartEnd (s e : Vec2) : Line := ⟨s, e.sub s⟩

def Line.fromPositionDirection (p d : Vec2) : Line := ⟨p, d⟩

def Line.direction (l : Line) : Vec2 := l.d

def Line.startPoint (l : Line) : Vec2 := l.p

def Line.applyMatrix (l : Line) (m : Matrix) : Line :=
  ⟨l.p.applyMatrix m, l.d.applyMatrix m⟩

/-- `HitboxManager::line_collision` (`src/utils/colliders.rs` lines 287-344):
reparametrizes `collider` into the coordinate frame spanned by the moving
edge's direction and the movement vector, then returns the movement fraction
at which the finite collider segment is first touched, `1.0` when there is no
contact, clamping every contact result with `min(_, 1.0)`. -/
def lineCollision (movingLine : Line) (movement : Vec2) (collider : Line) : ℚ :=
  let lp := movingLine.startPoint
  let ld := movingLine.direction
  match Matrix.inverse ⟨⟨ld.x, movement.x⟩, ⟨ld.y, movement.y⟩⟩ with
  | none => 1
  | some transform =>
    let repositionedCollider :=
      Line.fromPositionDirection (collider.startPoint.sub lp) collider.direction
    let rc := repositionedCollider.applyMatrix transform
    -- normalize line direction such that higher t always gives a higher distance
    let remappedCollider :=
      if rc.direction.y < 0 then
        Line.fromPositionDirection (rc.startPoint.add rc.direction) rc.direction.neg
      else rc
    let offsetK := remappedCollider.direction.x
    let distanceK := remappedCollider.direction.y
    let offsetM := remappedCollider.startPoint.x
    let distanceM := remappedCollider.startPoint.y
    -- test t = 0.0
    let offset := offsetK * 0 + offsetM
    if 0 ≤ offset then
      if offset ≤ 1 then min (distanceK * 0 + distanceM) 1
      else if 0 ≤ offsetK then 1
      else
        -- solve for t when offset = 1.0, and then check if it is <= 1.0
        let t := (1 - offsetM) / offsetK
        if t ≤ 1 then min (distanceK * t + distanceM) 1 else 1
    else if offsetK ≤ 0 then 1
    else
      -- solve for t when offset = 0.0, and then check if it is <= 1.0
      let t := -offsetM / offsetK
      if t ≤ 1 then min (distanceK * t + distanceM) 1 else 1

/-- C9: for every pair of input lines and every movement vector,
`HitboxManager::line_collision` returns a value at most `1.0`: every
non-contact path returns exactly `1.0` and every contact path clamps its
result with `min(_, 1.0)`, so the solver never amplifies the requested
movement beyond its full length. -/
theorem lineCollision_le_one (movingLine : Line) (movement : Vec2) (collider : Line) :
    lineCollision movingLine movement collider ≤ 1 := by
  unfold lineCollision
  dsimp only
  split
  · exact le_refl 1
  · split_ifs <;> first | exact le_refl 1 | exact min_le_right _ 1

/-- `Rect<f32>` (`src/utils/math/rect.rs`) restricted to NaN-free values:
`min` and `max` corner, stored as given (`Rect::new` performs no check). -/
structure Rect where
  minX : ℚ
  minY : ℚ
  maxX : ℚ
  maxY : ℚ
deriving DecidableEq

/-- A raw `f32` at the validation boundary: `none` models NaN. -/
def RawF32 : Type := Option ℚ

/-- `Rect<f32>` with possibly-NaN components, as fed to `ValidRect::try_from`. -/
structure RawRect where
  minX : RawF32
  minY : RawF32
  maxX : RawF32
  maxY : RawF32

/-- `ValidRect` (`src/utils/colliders.rs`): a rectangle of `NotNan<f32>`
components.  The source derives `Hash`/`Eq` on it so it can live in a
`HashSet`. -/
structure ValidRect where
  minX : ℚ
  minY : ℚ
  maxX : ℚ
  maxY : ℚ
deriving DecidableEq

/-- `TryFrom<Rect> for ValidRect`: each component is converted through
`NotNan::try_from`, which fails exactly on NaN (`FloatIsNan`) and otherwise
keeps the value unchanged.  No ordering of `min` against `max` is checked. -/
def ValidRect.tryFrom (r : RawRect) : Option ValidRect :=
  match r.minX, r.minY, r.maxX, r.maxY with
  | some a, some b, some c, some d => some ⟨a, b, c, d⟩
  | _, _, _, _ => none

/-- `ValidRect::intersects`: open-interval overlap test on both axes. -/
def ValidRect.intersects (a b : ValidRect) : Bool :=
  !(a.maxX ≤ b.minX || a.minX ≥ b.maxX || a.maxY ≤ b.minY || a.minY ≥ b.maxY)

/-- `ValidRect::add_offset`: translate both corners by `offset`. -/
def ValidRect.addOffset (r : ValidRect) (offset : Vec2) : ValidRect :=
  ⟨r.minX + offset.x, r.minY + offset.y, r.maxX + offset.x, r.maxY + offset.y⟩

/-- Componentwise union of two axis-aligned boxes, as performed inside
`HitboxChunk::expand_bounding_box` (min of mins, max of maxes). -/
def ValidRect.expand (bb h : ValidRect) : ValidRect :=
  ⟨min bb.minX h.minX, min bb.minY h.minY, max bb.maxX h.maxX, max bb.maxY h.maxY⟩

/-- `HitboxChunk`: a spatial bucket of hitboxes (`HashSet<ValidRect>`,
modelled as a duplicate-free list) plus the cached bounding box. -/
structure HitboxChunk where
  boundingBox : Option ValidRect
  elements : List ValidRect
deriving DecidableEq

def HitboxChunk.empty : HitboxChunk := ⟨none, []⟩

/-- `HitboxChunk::recalculate_bounding_box`: a from-scratch scan over the
element set.  The source folds per-coordinate `min`/`max` starting from
`±INFINITY`; over a nonempty set this equals folding the componentwise union
starting from the first element, which is how the seed is modelled here. -/
def HitboxChunk.recalculateBoundingBox (c : HitboxChunk) : HitboxChunk :=
  match c.elements with
  | [] => ⟨none, c.elements⟩
  | e :: rest => ⟨some (rest.foldl ValidRect.expand e), c.elements⟩

/-- `HitboxChunk::expand_bounding_box`: seed the cached box with the incoming
hitbox when the set is still empty, then expand it componentwise. -/
def HitboxChunk.expandBoundingBox (c : HitboxChunk) (h : ValidRect) : HitboxChunk :=
  let c1 := if c.elements.isEmpty then HitboxChunk.mk (some h) c.elements else c
  match c1.boundingBox with
  | some bb => ⟨some (bb.expand h), c1.elements⟩
  | none => ⟨some h, c1.elements⟩

/-- `HitboxChunk::insert`: expand the cached box, then insert into the set
(`HashSet::insert` is a no-op on an element already present). -/
def HitboxChunk.insert (c : HitboxChunk) (h : ValidRect) : HitboxChunk :=
  let c1 := c.expandBoundingBox h
  ⟨c1.boundingBox, if h ∈ c1.elements then c1.elements else h :: c1.elements⟩

/-- `HitboxChunk::remove`: if the element was present, remove it and fully
recompute the cached bounding box; otherwise leave the chunk untouched. -/
def HitboxChunk.remove (c : HitboxChunk) (h : ValidRect) : HitboxChunk :=
  if h ∈ c.elements then
    HitboxChunk.recalculateBoundingBox ⟨c.boundingBox, c.elements.erase h⟩
  else c

/-- One operation of the sequences quantified over in the chunk invariant. -/
inductive ChunkOp
  | ins (h : ValidRect)
  | rem (h : ValidRect)

def applyChunkOp (c : HitboxChunk) : ChunkOp → HitboxChunk
  | .ins h => c.insert h
  | .rem h => c.remove h

def applyChunkOps (ops : List ChunkOp) : HitboxChunk :=
  ops.foldl applyChunkOp HitboxChunk.empty

/-- Specification: the minimum of a list of rationals, `none` on the empty
list. -/
def listMinQ : List ℚ → Option ℚ
  | [] => none
  | x :: l => some (l.foldl min x)

/-- Specification: the maximum of a list of rationals, `none` on the empty
list. -/
def listMaxQ : List ℚ → Option ℚ
  | [] => none
  | x :: l => some (l.foldl max x)

/-- Specification: the tight axis-aligned bounding box of an element set,
assembled per coordinate from scratch; `none` exactly on the empty set. -/
def scanBB (l : List ValidRect) : Option ValidRect :=
  match listMinQ (l.map ValidRect.minX), listMinQ (l.map ValidRect.minY),
      listMaxQ (l.map ValidRect.maxX), listMaxQ (l.map ValidRect.maxY) with
  | some a, some b, some c, some d => some ⟨a, b, c, d⟩
  | _, _, _, _ => none

theorem ValidRect.expand_self (h : ValidRect) : h.expand h = h := by
  simp [ValidRect.expand]

theorem ValidRect.expand_comm (a b : ValidRect) : a.expand b = b.expand a := by
  simp [ValidRect.expand, min_comm, max_comm]

theorem ValidRect.expand_right_comm (b h1 h2 : ValidRect) :
    (b.expand h1).expand h2 = (b.expand h2).expand h1 := by
  simp [ValidRect.expand, min_right_comm, sup_right_comm]

theorem foldl_expand_expand (l : List ValidRect) (b h : ValidRect) :
    (l.foldl ValidRect.expand b).expand h = l.foldl ValidRect.expand (b.expand h) := by
  induction l generalizing b with
  | nil => rfl
  | cons a l ih =>
    simp only [List.foldl_cons]
    rw [ih, ValidRect.expand_right_comm]

theorem foldl_expand_proj (l : List ValidRect) (b : ValidRect) :
    l.foldl ValidRect.expand b =
      ⟨(l.map ValidRect.minX).foldl min b.minX, (l.map ValidRect.minY).foldl min b.minY,
        (l.map ValidRect.maxX).foldl max b.maxX, (l.map ValidRect.maxY).foldl max b.maxY⟩ := by
  induction l generalizing b with
  | nil => rfl
  | cons a l ih =>
    simp only [List.foldl_cons, List.map_cons]
    rw [ih]
    rfl

theorem scanBB_cons (e : ValidRect) (l : List ValidRect) :
    scanBB (e :: l) = some (l.foldl ValidRect.expand e) := by
  rw [foldl_expand_proj]
  rfl

/-- One box containing another, componentwise. -/
def covers (bb h : ValidRect) : Prop :=
  bb.minX ≤ h.minX ∧ bb.minY ≤ h.minY ∧ h.maxX ≤ bb.maxX ∧ h.maxY ≤ bb.maxY

theorem covers_trans {a b c : ValidRect} (h1 : covers a b) (h2 : covers b c) : covers a c :=
  ⟨le_trans h1.1 h2.1, le_trans h1.2.1 h2.2.1,
    le_trans h2.2.2.1 h1.2.2.1, le_trans h2.2.2.2 h1.2.2.2⟩

theorem covers_expand_left (b h : ValidRect) : covers (b.expand h) b :=
  ⟨min_le_left _ _, min_le_left _ _, le_max_left _ _, le_max_left _ _⟩

theorem covers_expand_right (b h : ValidRect) : covers (b.expand h) h :=
  ⟨min_le_right _ _, min_le_right _ _, le_max_right _ _, le_max_right _ _⟩

theorem expand_of_covers {bb h : ValidRect} (hc : covers bb h) : bb.expand h = bb := by
  obtain ⟨h1, h2, h3, h4⟩ := hc
  simp [ValidRect.expand, min_eq_left h1, min_eq_left h2, max_eq_left h3, max_eq_left h4]

theorem covers_foldl (l : List ValidRect) (b : ValidRect) :
    covers (l.foldl ValidRect.expand b) b := by
  induction l generalizing b with
  | nil => exact ⟨le_refl _, le_refl _, le_refl _, le_refl _⟩
  | cons a l ih =>
    exact covers_trans (ih (b.expand a)) (covers_expand_left b a)

theorem covers_foldl_mem {l : List ValidRect} {h : ValidRect} (b : ValidRect) (hm : h ∈ l) :
    covers (l.foldl ValidRect.expand b) h := by
  induction hm generalizing b with
  | head l => exact covers_trans (covers_foldl l (b.expand h)) (covers_expand_right b h)
  | tail a hm2 ih => exact ih _

/-- The cached-bounding-box invariant of a chunk. -/
def chunkInv (c : HitboxChunk) : Prop := c.boundingBox = scanBB c.elements

theorem recalc_eq (bb : Option ValidRect) (l : List ValidRect) :
    HitboxChunk.recalculateBoundingBox ⟨bb, l⟩ = ⟨scanBB l, l⟩ := by
  cases l with
  | nil => rfl
  | cons e rest =>
    rw [HitboxChunk.recalculateBoundingBox, scanBB_cons]

theorem insert_nil_eq (bb : Option ValidRect) (h : ValidRect) :
    HitboxChunk.insert ⟨bb, []⟩ h = ⟨some (h.expand h), [h]⟩ := rfl

theorem insert_cons_eq (bb : ValidRect) (e : ValidRect) (l : List ValidRect) (h : ValidRect) :
    HitboxChunk.insert ⟨some bb, e :: l⟩ h =
      ⟨some (bb.expand h), if h ∈ e :: l then e :: l else h :: e :: l⟩ := rfl

theorem insert_chunkInv {c : HitboxChunk} (h : ValidRect) (hc : chunkInv c) :
    chunkInv (c.insert h) := by
  obtain ⟨bb, els⟩ := c
  unfold chunkInv at *
  cases els with
  | nil =>
    rw [insert_nil_eq, scanBB_cons]
    simp [ValidRect.expand_self]
  | cons e l =>
    have hbb : bb = some (l.foldl ValidRect.expand e) := by
      simpa [scanBB_cons] using hc
    subst hbb
    rw [insert_cons_eq]
    by_cases hmem : h ∈ e :: l
    · have hcov : covers (l.foldl ValidRect.expand e) h := by
        rcases List.mem_cons.mp hmem with rfl | hm2
        · exact covers_foldl l h
        · exact covers_foldl_mem e hm2
      simp only [if_pos hmem, expand_of_covers hcov, scanBB_cons]
    · simp only [if_neg hmem, scanBB_cons, scanBB_cons e l]
      rw [foldl_expand_expand, ValidRect.expand_comm e h]
      rfl

theorem remove_chunkInv {c : HitboxChunk} (h : ValidRect) (hc : chunkInv c) :
    chunkInv (c.remove h) := by
  obtain ⟨bb, els⟩ := c
  unfold HitboxChunk.remove
  by_cases hmem : h ∈ els
  · simp only [hmem, if_pos, recalc_eq]
    rfl
  · simpa [hmem] using hc

theorem chunkInv_foldl (ops : List ChunkOp) (c : HitboxChunk) (hc : chunkInv c) :
    chunkInv (ops.foldl applyChunkOp c) := by
  induction ops generalizing c with
  | nil => exact hc
  | cons op ops ih =>
    refine ih (applyChunkOp c op) ?_
    cases op with
    | ins h => exact insert_chunkInv h hc
    | rem h => exact remove_chunkInv h hc

/-- C5: for every finite sequence of `HitboxChunk::insert` /
`HitboxChunk::remove` operations starting from an empty chunk, the cached
`bounding_box` equals the tight axis-aligned bounding box of the current
element set computed by a from-scratch per-coordinate scan, and it is `None`
exactly when the element set is empty; in particular the incremental
expansion on insert and the full recomputation after removal agree with the
from-scratch scan. -/
theorem hitboxChunk_boundingBox_tight (ops : List ChunkOp) :
    (applyChunkOps ops).boundingBox = scanBB (applyChunkOps ops).elements ∧
    ((applyChunkOps ops).boundingBox = none ↔ (applyChunkOps ops).elements = []) := by
  have hinv : chunkInv (applyChunkOps ops) := chunkInv_foldl ops HitboxChunk.empty rfl
  refine ⟨hinv, ?_⟩
  rw [chunkInv] at hinv
  rw [hinv]
  cases hE : (applyChunkOps ops).elements with
  | nil => simp [scanBB, listMinQ, listMaxQ]
  | cons e l => simp [scanBB_cons]

/-- `HitboxManager` (`src/utils/colliders.rs`): a sparse grid mapping integer
chunk coordinates to chunks (`HashMap`, modelled as an association list) plus
the chunk dimensions (`[128.0; 2]` in `FromIterator`). -/
structure HitboxManager where
  chunks : List ((ℤ × ℤ) × HitboxChunk)
  chunkDimX : ℚ
  chunkDimY : ℚ

def lookupChunk : List ((ℤ × ℤ) × HitboxChunk) → ℤ × ℤ → Option HitboxChunk
  | [], _ => none
  | (k, c) :: rest, q => if k = q then some c else lookupChunk rest q

/-- `self.chunks.entry(coords).or_default()` followed by `chunk.insert`. -/
def insertChunkAt : List ((ℤ × ℤ) × HitboxChunk) → ℤ × ℤ → ValidRect →
    List ((ℤ × ℤ) × HitboxChunk)
  | [], q, h => [(q, HitboxChunk.empty.insert h)]
  | (k, c) :: rest, q, h =>
    if k = q then (k, c.insert h) :: rest else (k, c) :: insertChunkAt rest q h

/-- `HitboxManager::get_chunk_coordinates`: `floor(min / chunk_dimensions)`
per axis. -/
def HitboxManager.getChunkCoordinates (m : HitboxManager) (h : ValidRect) : ℤ × ℤ :=
  (⌊h.minX / m.chunkDimX⌋, ⌊h.minY / m.chunkDimY⌋)

/-- The post-validation body of `HitboxManager::insert`. -/
def HitboxManager.insertValid (m : HitboxManager) (h : ValidRect) : HitboxManager :=
  ⟨insertChunkAt m.chunks (m.getChunkCoordinates h) h, m.chunkDimX, m.chunkDimY⟩

/-- `HitboxManager::insert`: validate through `ValidRect::try_from` (NaN check
only), then insert into the chunk of the rectangle's minimum corner; `none`
models the `Err(FloatIsNan)` return. -/
def HitboxManager.insert (m : HitboxManager) (r : RawRect) : Option HitboxManager :=
  (ValidRect.tryFrom r).map m.insertValid

/-- `HitboxManager::nearby_chunks`: the 3x3 chunk neighborhood around the
rectangle's own chunk, in row-major (y outer, x inner) push order. -/
def HitboxManager.nearbyChunks (m : HitboxManager) (h : ValidRect) : List HitboxChunk :=
  let q := m.getChunkCoordinates h
  (List.range 3).flatMap fun y =>
    (List.range 3).filterMap fun x =>
      lookupChunk m.chunks (q.1 + (x : ℤ) - 1, q.2 + (y : ℤ) - 1)

/-- The four edges of an axis-aligned rectangle in the corner order used by
both `source_lines` and `collision_lines` in `moving_hit_test`:
top-left to top-right, top-right to bottom-right, bottom-right to
bottom-left, bottom-left to top-left. -/
def rectLines (minX minY maxX maxY : ℚ) : List Line :=
  let topLeft : Vec2 := ⟨minX, maxY⟩
  let topRight : Vec2 := ⟨maxX, maxY⟩
  let bottomLeft : Vec2 := ⟨minX, minY⟩
  let bottomRight : Vec2 := ⟨maxX, minY⟩
  [Line.fromStartEnd topLeft topRight,
    Line.fromStartEnd topRight bottomRight,
    Line.fromStartEnd bottomRight bottomLeft,
    Line.fromStartEnd bottomLeft topLeft]

/-- The chunk broad-phase filter:
`bounding_box.as_ref().is_some_and(|bb| bb.intersects(target))`. -/
def chunkBBIntersects (vTargetRect : ValidRect) (c : HitboxChunk) : Bool :=
  match c.boundingBox with
  | some bb => bb.intersects vTargetRect
  | none => false

/-- Innermost loop body of `moving_hit_test`: for one source edge, skip it
unless its direction crosses the movement positively, otherwise solve
`line_collision` and update the tracked `(min_t, collision_direction)` pair,
including the near-tie direction heuristic guarded by `f32::EPSILON`. -/
def sourceStep (remainingMovement : Vec2) (collisionLine : Line) (acc : ℚ × Vec2)
    (sourceLine : Line) : ℚ × Vec2 :=
  if sourceLine.direction.cross remainingMovement ≤ 0 then acc
  else
    let collisionT := lineCollision sourceLine remainingMovement collisionLine
    let acc1 :=
      if |collisionT| < |acc.1| then (collisionT, sourceLine.direction.normalized) else acc
    if |collisionT| - |acc1.1| < f32Epsilon then
      let sourceD := sourceLine.direction.normalized
      let colliderD := collisionLine.direction.normalized
      if 9 / 10 < |sourceD.dot colliderD| then (acc1.1, sourceD) else acc1
    else acc1

/-- Middle loop body of `moving_hit_test`: for one collider edge, skip it
unless its direction opposes the movement (negative cross product), otherwise
fold the source edges. -/
def collisionStep (remainingMovement : Vec2) (sourceLines : List Line) (acc : ℚ × Vec2)
    (collisionLine : Line) : ℚ × Vec2 :=
  if 0 ≤ collisionLine.direction.cross remainingMovement then acc
  else sourceLines.foldl (sourceStep remainingMovement collisionLine) acc

/-- Outer loop body of `moving_hit_test`: for one candidate static hitbox,
skip it unless it intersects the target rectangle, otherwise fold its four
edges. -/
def elemStep (remainingMovement : Vec2) (vTargetRect : ValidRect) (sourceLines : List Line)
    (acc : ℚ × Vec2) (elem : ValidRect) : ℚ × Vec2 :=
  if elem.intersects vTargetRect then
    (rectLines elem.minX elem.minY elem.maxX elem.maxY).foldl
      (collisionStep remainingMovement sourceLines) acc
  else acc

/-- `HitboxManager::moving_hit_test` (`src/utils/colliders.rs` lines
171-262): sweep the moving rectangle along `movement`, find the smallest
collision fraction `min_t` over all facing edge pairs of all nearby
candidate hitboxes, and return
`applied_movement (min_t * movement) + remaining_movement`, the latter being
the leftover projected onto the selected collision edge's direction (the
single-bounce slide response). -/
def HitboxManager.movingHitTest (m : HitboxManager) (rect : Rect) (movement : Vec2) : Vec2 :=
  let vRect : ValidRect := ⟨rect.minX, rect.minY, rect.maxX, rect.maxY⟩
  let chunks := m.nearbyChunks vRect
  let remainingMovement := movement
  let appliedMovement : Vec2 := ⟨0, 0⟩
  -- the source rebuilds `rect` translated by the (still zero) applied movement
  let sourceLines := rectLines (rect.minX + appliedMovement.x) (rect.minY + appliedMovement.y)
    (rect.maxX + appliedMovement.x) (rect.maxY + appliedMovement.y)
  let vTargetRect := vRect.addOffset remainingMovement
  let colliders := (chunks.filter (chunkBBIntersects vTargetRect)).flatMap HitboxChunk.elements
  let best := colliders.foldl (elemStep remainingMovement vTargetRect sourceLines) (1, ⟨0, 0⟩)
  let minT := best.1
  let collisionDirection := best.2
  let applied := appliedMovement.add (Vec2.smul minT remainingMovement)
  let remaining :=
    Vec2.smul ((1 - minT) * remainingMovement.dot collisionDirection) collisionDirection
  applied.add remaining

/-- The static wall of the orthogonal-wall swept-collision scenario:
`x ∈ [15,25]`, `y ∈ [-5,15]`. -/
def wallRect : ValidRect := ⟨15, -5, 25, 15⟩

/-- A `HitboxManager` holding only `wallRect`, with the `FromIterator` chunk
dimensions `[128.0; 2]`. -/
def c1Manager : HitboxManager := HitboxManager.insertValid ⟨[], 128, 128⟩ wallRect

theorem c1Manager_eq :
    c1Manager = ⟨[((0, -1), ⟨some wallRect, [wallRect]⟩)], 128, 128⟩ := by
  have hq : HitboxManager.getChunkCoordinates ⟨[], 128, 128⟩ wallRect = (0, -1) := by
    unfold HitboxManager.getChunkCoordinates wallRect
    norm_num
  unfold c1Manager HitboxManager.insertValid
  rw [hq]
  show HitboxManager.mk [((0, -1), HitboxChunk.empty.insert wallRect)] 128 128 = _
  rw [show HitboxChunk.empty.insert wallRect
      = HitboxChunk.mk (some (wallRect.expand wallRect)) [wallRect] from rfl,
    ValidRect.expand_self]

theorem c1_nearby :
    HitboxManager.nearbyChunks ⟨[((0, -1), ⟨some wallRect, [wallRect]⟩)], 128, 128⟩
      ⟨0, 0, 10, 10⟩ = [⟨some wallRect, [wallRect]⟩] := by
  have hq : HitboxManager.getChunkCoordinates
      ⟨[((0, -1), ⟨some wallRect, [wallRect]⟩)], 128, 128⟩ ⟨0, 0, 10, 10⟩ = (0, 0) := by
    unfold HitboxManager.getChunkCoordinates
    norm_num
  unfold HitboxManager.nearbyChunks
  rw [hq]
  decide

theorem c1_lineCollision :
    lineCollision ⟨⟨10, 10⟩, ⟨0, -10⟩⟩ ⟨20, 0⟩ ⟨⟨15, -5⟩, ⟨0, 20⟩⟩ = 1 / 4 := by
  have hInv : Matrix.inverse ⟨⟨0, 20⟩, ⟨-10, 0⟩⟩ = some ⟨⟨0, -(1/10)⟩, ⟨1/20, 0⟩⟩ := by
    unfold Matrix.inverse
    norm_num [f32Epsilon]
  unfold lineCollision
  dsimp only [Line.startPoint, Line.direction]
  rw [hInv]
  norm_num [Line.fromPositionDirection, Line.applyMatrix, Vec2.applyMatrix, Vec2.sub,
    Vec2.add, Vec2.neg, Vec2.dot]

theorem c1_norm1 : Vec2.normalized ⟨0, -10⟩ = ⟨0, -1⟩ := by
  have habs : Vec2.length ⟨0, -10⟩ = 10 := by
    unfold Vec2.length Vec2.absSquared
    rw [show ((0:ℚ) * 0 + (-10) * (-10)) = 100 from by norm_num]
    unfold ratSqrt
    rw [show natSqrt (100:ℚ).num.toNat = 10 from by decide,
      show natSqrt (100:ℚ).den = 1 from by decide]
    norm_num
  unfold Vec2.normalized
  rw [habs]
  norm_num

theorem c1_norm2 : Vec2.normalized ⟨0, 20⟩ = ⟨0, 1⟩ := by
  have habs : Vec2.length ⟨0, 20⟩ = 20 := by
    unfold Vec2.length Vec2.absSquared
    rw [show ((0:ℚ) * 0 + 20 * 20) = 400 from by norm_num]
    unfold ratSqrt
    rw [show natSqrt (400:ℚ).num.toNat = 20 from by decide,
      show natSqrt (400:ℚ).den = 1 from by decide]
    norm_num
  unfold Vec2.normalized
  rw [habs]
  norm_num

set_option maxHeartbeats 1000000 in
/-- C1: for a moving axis-aligned 10x10 rectangle with `min = (0,0)`,
`max = (10,10)` and movement vector `[20,0]`, queried against a
`HitboxManager` containing a single static hitbox occupying
`x ∈ [15,25], y ∈ [-5,15]`, `HitboxManager::moving_hit_test` returns the
clamped movement `[5,0]` (collision fraction `t = 1/4`), not the requested
`[20,0]`. -/
theorem movingHitTest_wall_clamps :
    c1Manager.movingHitTest ⟨0, 0, 10, 10⟩ ⟨20, 0⟩ = ⟨5, 0⟩ := by
  rw [c1Manager_eq]
  unfold HitboxManager.movingHitTest
  dsimp only
  rw [c1_nearby]
  have htarget : ValidRect.addOffset ⟨0, 0, 10, 10⟩ ⟨20, 0⟩ = ⟨20, 0, 30, 10⟩ := by
    unfold ValidRect.addOffset
    norm_num
  rw [htarget]
  have hfilter : List.filter (chunkBBIntersects ⟨20, 0, 30, 10⟩)
      [HitboxChunk.mk (some wallRect) [wallRect]] = [⟨some wallRect, [wallRect]⟩] := by
    decide
  rw [hfilter]
  have hsrc : rectLines (0 + 0) (0 + 0) (10 + 0) (10 + 0) =
      [⟨⟨0, 10⟩, ⟨10, 0⟩⟩, ⟨⟨10, 10⟩, ⟨0, -10⟩⟩, ⟨⟨10, 0⟩, ⟨-10, 0⟩⟩, ⟨⟨0, 0⟩, ⟨0, 10⟩⟩] := by
    unfold rectLines Line.fromStartEnd Vec2.sub
    norm_num
  rw [hsrc]
  have hwall : rectLines (15 : ℚ) (-5) 25 15 =
      [⟨⟨15, 15⟩, ⟨10, 0⟩⟩, ⟨⟨25, 15⟩, ⟨0, -20⟩⟩, ⟨⟨25, -5⟩, ⟨-10, 0⟩⟩,
        ⟨⟨15, -5⟩, ⟨0, 20⟩⟩] := by
    unfold rectLines Line.fromStartEnd Vec2.sub
    norm_num
  norm_num [List.foldl_cons, List.foldl_nil, elemStep, wallRect, hwall, collisionStep,
    sourceStep, c1_lineCollision, c1_norm1, c1_norm2, ValidRect.intersects, Vec2.cross,
    Vec2.dot, Vec2.add, Vec2.smul, f32Epsilon, Line.direction]
  norm_num [abs_of_nonneg, abs_of_nonpos]

/-- A rectangle whose `min` x-coordinate exceeds its `max` x-coordinate, with
no NaN component. -/
def invertedRawRect : RawRect := ⟨some 1, some 0, some 0, some 0⟩

/-- C6 counterexample: `ValidRect::try_from` checks only for NaN, so
`HitboxManager::insert` accepts the inverted rectangle
`min = (1,0), max = (0,0)` and stores it as-is; the stored `ValidRect`
violates `min[0] <= max[0]`, refuting the claim that every accepted rectangle
satisfies `min <= max` per axis. -/
theorem insert_accepts_inverted_rect :
    HitboxManager.insert ⟨[], 128, 128⟩ invertedRawRect =
      some ⟨[((0, 0), ⟨some ⟨1, 0, 0, 0⟩, [⟨1, 0, 0, 0⟩]⟩)], 128, 128⟩ ∧
    ¬ (ValidRect.minX ⟨1, 0, 0, 0⟩ ≤ ValidRect.maxX ⟨1, 0, 0, 0⟩) := by
  constructor
  · have hq : HitboxManager.getChunkCoordinates ⟨[], 128, 128⟩ ⟨1, 0, 0, 0⟩ = (0, 0) := by
      unfold HitboxManager.getChunkCoordinates
      norm_num
    unfold HitboxManager.insert invertedRawRect
    rw [show ValidRect.tryFrom ⟨some 1, some 0, some 0, some 0⟩
        = some ⟨1, 0, 0, 0⟩ from rfl]
    show some (HitboxManager.insertValid ⟨[], 128, 128⟩ ⟨1, 0, 0, 0⟩) = _
    unfold HitboxManager.insertValid
    rw [hq]
    show some (HitboxManager.mk [((0, 0), HitboxChunk.empty.insert ⟨1, 0, 0, 0⟩)] 128 128) = _
    rw [show HitboxChunk.empty.insert ⟨1, 0, 0, 0⟩
        = HitboxChunk.mk (some (ValidRect.expand ⟨1, 0, 0, 0⟩ ⟨1, 0, 0, 0⟩)) [⟨1, 0, 0, 0⟩]
        from rfl, ValidRect.expand_self]
  · decide

/-- C6 (amended): `ValidRect::try_from` validates only NaN-freeness and
stores every component unchanged, so a stored hitbox rectangle satisfies
`min <= max` on an axis exactly when the inserted `Rect` already did; the
ordering is not enforced by the conversion. -/
theorem tryFrom_preserves_components (r : RawRect) (vr : ValidRect)
    (h : ValidRect.tryFrom r = some vr) :
    r.minX = some vr.minX ∧ r.minY = some vr.minY ∧
      r.maxX = some vr.maxX ∧ r.maxY = some vr.maxY := by
  obtain ⟨a, b, c, d⟩ := r
  cases a <;> cases b <;> cases c <;> cases d <;> cases h
  exact ⟨rfl, rfl, rfl, rfl⟩

/-- Witness for the amended C6 theorem at a concrete NaN-free input. -/
theorem tryFrom_preserves_components_witness :
    RawRect.minX ⟨some 1, some 2, some 3, some 4⟩ = some (ValidRect.minX ⟨1, 2, 3, 4⟩) ∧
    RawRect.minY ⟨some 1, some 2, some 3, some 4⟩ = some (ValidRect.minY ⟨1, 2, 3, 4⟩) ∧
    RawRect.maxX ⟨some 1, some 2, some 3, some 4⟩ = some (ValidRect.maxX ⟨1, 2, 3, 4⟩) ∧
    RawRect.maxY ⟨some 1, some 2, some 3, some 4⟩ = some (ValidRect.maxY ⟨1, 2, 3, 4⟩) :=
  tryFrom_preserves_components ⟨some 1, some 2, some 3, some 4⟩ ⟨1, 2, 3, 4⟩ rfl

end Colliders

namespace TileAnim

/-- `TileAnimation` clock state (`src/drawables/tiles/tilemap.rs`): the
push-constant staging value `FrameData.layer_offset` (a `u32` frame-id offset
cast to `f32`, exactly representable, modelled as the integer), the `Instant`
of the last tick (milliseconds), and the current frame index. -/
structure TileAnimation where
  bufferLayerOffset : ℕ
  lastFrameTime : ℕ
  currentFrame : ℕ
deriving DecidableEq

/-- `TileAnimation::new`: offset `0.0`, timestamp now (time `0`), frame `0`. -/
def TileAnimation.init : TileAnimation := ⟨0, 0, 0⟩

/-- One `TileMapLoader::update` pass over a single animation clock at
wall-clock time `now` (ms), with `frames` the clock's authored
`(frame-id-offset, duration-ms)` list: if the time since the last tick
strictly exceeds the current frame's duration, advance to the next frame
index (wrapping), reset the tick timestamp to now, and write the new frame's
offset into the clock's buffer; the boolean reports whether a tick happened. -/
def tickClock (frames : List (ℕ × ℕ)) (st : TileAnimation) (now : ℕ) :
    TileAnimation × Bool :=
  let frameDuration := (frames.getD st.currentFrame (0, 0)).2
  if now - st.lastFrameTime > frameDuration then
    let newFrame := (st.currentFrame + 1) % frames.length
    let layerOffset := (frames.getD newFrame (0, 0)).1
    (⟨layerOffset, now, newFrame⟩, true)
  else (st, false)

/-- Poll `TileMapLoader::update` once every millisecond from time `0` up to
and including time `upTo`, counting how many polls ticked the clock. -/
def pollClock (frames : List (ℕ × ℕ)) (upTo : ℕ) : TileAnimation × ℕ :=
  (List.range (upTo + 1)).foldl
    (fun acc now =>
      let r := tickClock frames acc.1 now
      (r.1, acc.2 + if r.2 then 1 else 0))
    (TileAnimation.init, 0)

set_option maxRecDepth 20000 in
/-- C4: for an animation clock with frames `[(id 0, 100 ms), (id 1, 50 ms)]`
starting at frame 0, polling `TileMapLoader::update` every millisecond ticks
the clock exactly once (to frame 1, at time 101, writing offset 1) by the
time 120 ms have elapsed, and exactly twice (wrapping back to frame 0, at
time 152, writing offset 0) by the time 170 ms have elapsed; each tick resets
the tick timestamp and writes the new frame's offset into the clock's
buffer. -/
theorem animation_clock_ticks :
    pollClock [(0, 100), (1, 50)] 120 = (⟨1, 101, 1⟩, 1) ∧
    pollClock [(0, 100), (1, 50)] 170 = (⟨0, 152, 0⟩, 2) := by
  decide

/-- C10: a single `TileMapLoader::update` call advances an animation clock's
current frame index by at most one step (modulo the frame count), no matter
how much wall-clock time has elapsed since the clock's last tick: there is no
catch-up loop. -/
theorem update_advances_at_most_one_frame (frames : List (ℕ × ℕ)) (st : TileAnimation)
    (now : ℕ) :
    (tickClock frames st now).1.currentFrame = st.currentFrame ∨
    (tickClock frames st now).1.currentFrame = (st.currentFrame + 1) % frames.length := by
  unfold tickClock
  dsimp only
  split_ifs
  · right
    rfl
  · left
    rfl

end TileAnim

namespace Uniform

/-- `UniformBuffer<T>` state (`src/graphics/bindable/uniform.rs`): one
GPU-resident sub-buffer per in-flight frame, one validity flag per sub-buffer
(`UniformBufferMutablePart.subbuffer_validity`), and the CPU staging value. -/
structure UniformBufferState (α : Type) where
  subbuffers : List α
  validity : List Bool
  staging : α
deriving DecidableEq

/-- `UniformBuffer::access_data`: under the mutex, first set every validity
flag to `false`, then let the accessing function mutate the staging value. -/
def accessData {α : Type} (st : UniformBufferState α) (f : α → α) : UniformBufferState α :=
  ⟨st.subbuffers, st.validity.map fun _ => false, f st.staging⟩

/-- `UniformBufferBinding::bind` for in-flight slot `k`: if slot `k` is
invalid, copy the staging value into slot `k`'s sub-buffer and set only slot
`k`'s flag back to `true` (the sub-buffer write lock succeeds here, as it
does whenever the fenced in-flight slot has been reclaimed); the subsequent
descriptor-set bind reads the sub-buffer and has no state effect. -/
def bind {α : Type} (st : UniformBufferState α) (k : ℕ) : UniformBufferState α :=
  if st.validity.getD k true = false then
    ⟨st.subbuffers.set k st.staging, st.validity.set k true, st.staging⟩
  else st

/-- C3: after `UniformBuffer::access_data` completes, every
per-in-flight-slot validity flag is `false`; a subsequent `bind` while slot
`k` is current copies the staging value into slot `k`'s sub-buffer and sets
only slot `k`'s flag back to `true`, leaving the validity flags and
sub-buffer contents of every other slot unchanged. -/
theorem accessData_bind_uploads_once {α : Type} (st : UniformBufferState α) (f : α → α)
    (k : ℕ) (hk : k < st.validity.length) (hs : k < st.subbuffers.length) :
    (∀ i, i < (accessData st f).validity.length →
      (accessData st f).validity[i]? = some false) ∧
    (bind (accessData st f) k).subbuffers[k]? = some (accessData st f).staging ∧
    (bind (accessData st f) k).validity[k]? = some true ∧
    (∀ i, i ≠ k → (bind (accessData st f) k).validity[i]? = (accessData st f).validity[i]?) ∧
    (∀ i, i ≠ k →
      (bind (accessData st f) k).subbuffers[i]? = (accessData st f).subbuffers[i]?) := by
  have hlen : (accessData st f).validity.length = st.validity.length := by
    simp [accessData]
  have hall : ∀ i, i < (accessData st f).validity.length →
      (accessData st f).validity[i]? = some false := by
    intro i hi
    rw [hlen] at hi
    simp [accessData, List.getElem?_map, List.getElem?_eq_getElem hi,
      List.getElem?_replicate, hi]
  have hcond : (accessData st f).validity.getD k true = false := by
    have := hall k (by rw [hlen]; exact hk)
    simp [List.getD, this]
  have hbind : bind (accessData st f) k =
      ⟨(accessData st f).subbuffers.set k (accessData st f).staging,
        (accessData st f).validity.set k true, (accessData st f).staging⟩ := by
    unfold bind
    rw [hcond]
    rfl
  refine ⟨hall, ?_, ?_, ?_, ?_⟩
  · rw [hbind]
    have hs2 : k < (accessData st f).subbuffers.length := by simpa [accessData] using hs
    simp [List.getElem?_set_self, hs2]
  · rw [hbind]
    have hk2 : k < (accessData st f).validity.length := by rw [hlen]; exact hk
    simp [List.getElem?_set_self, hk2]
  · intro i hi
    rw [hbind]
    exact List.getElem?_set_ne (Ne.symm hi)
  · intro i hi
    rw [hbind]
    exact List.getElem?_set_ne (Ne.symm hi)

/-- Witness for C3 at a concrete two-slot buffer of naturals. -/
theorem accessData_bind_uploads_once_witness :
    (bind (accessData (⟨[10, 20], [true, true], 0⟩ : UniformBufferState ℕ)
        (fun v => v + 5)) 0).subbuffers[0]? = some 5 ∧
    (bind (accessData (⟨[10, 20], [true, true], 0⟩ : UniformBufferState ℕ)
        (fun v => v + 5)) 0).validity[0]? = some true ∧
    (bind (accessData (⟨[10, 20], [true, true], 0⟩ : UniformBufferState ℕ)
        (fun v => v + 5)) 0).validity[1]? = some false := by
  have h := accessData_bind_uploads_once
    (⟨[10, 20], [true, true], 0⟩ : UniformBufferState ℕ) (fun v => v + 5) 0
    (by decide) (by decide)
  refine ⟨h.2.1, h.2.2.1, ?_⟩
  rw [h.2.2.2.1 1 (by decide)]
  exact h.1 1 (by decide)

end Uniform


/-- Association-list lookup, modelling `HashMap::get` for the process-wide
caches (first match wins, and insertion conses at the front, so a fresh
insert shadows a stale entry exactly like `HashMap::insert` overwrites). -/
def lookupAssoc {κ : Type} [DecidableEq κ] : List (κ × ℕ) → κ → Option ℕ
  | [], _ => none
  | (k, v) :: rest, q => if k = q then some v else lookupAssoc rest q

theorem lookupAssoc_mem {κ : Type} [DecidableEq κ] :
    ∀ (l : List (κ × ℕ)) (v : ℕ) (k : κ), lookupAssoc l k = some v → (k, v) ∈ l := by
  intro l
  induction l with
  | nil =>
    intro v k h
    cases h
  | cons p rest ih =>
    intro v k h
    obtain ⟨k0, w⟩ := p
    by_cases hkq : k0 = k
    · subst hkq
      rw [lookupAssoc, if_pos rfl] at h
      cases h
      exact List.mem_cons_self _ _
    · rw [lookupAssoc, if_neg hkq] at h
      exact List.mem_cons_of_mem _ (ih v k h)

namespace DrawCache

/-- The identity of one `GenericDrawable::new` result: the shared part it
references and that part's compiled pipeline object, both named by the
allocation order of `DrawableSharedPart`s (two results are pointer-equal in
the source exactly when they carry the same allocation number here). -/
structure BuiltDrawable where
  sharedPartId : ℕ
  pipelineId : ℕ
deriving DecidableEq

/-- The process-wide state read by `GenericDrawable::new`
(`src/graphics/drawable.rs` with `Graphics::get_shared_data` /
`Graphics::cache_drawable_shared_part`): the call-site keyed map of weak
references to shared parts, the set of shared-part allocation numbers that
still have a strong owner (a successful `Weak::upgrade`), and the next
allocation number. -/
structure GfxCacheState where
  sharedDataMap : List (ℕ × ℕ)
  alive : List ℕ
  nextId : ℕ
deriving DecidableEq

/-- The cache-miss arm of `GenericDrawable::new`: build instance and shared
bindables, compile one fresh pipeline, wrap both in a fresh
`DrawableSharedPart`, and register it under the caller's location. -/
def buildShared (st : GfxCacheState) (caller : ℕ) : BuiltDrawable × GfxCacheState :=
  (⟨st.nextId, st.nextId⟩,
    ⟨(caller, st.nextId) :: st.sharedDataMap, st.nextId :: st.alive, st.nextId + 1⟩)

/-- `GenericDrawable::new` (`src/graphics/drawable.rs` lines 43-106), keyed
by `std::panic::Location::caller()` (modelled as a number): look the call
site up in the shared-data map; on a live weak reference reuse the shared
part unchanged, otherwise build and register a fresh one. -/
def genericDrawableNew (st : GfxCacheState) (caller : ℕ) : BuiltDrawable × GfxCacheState :=
  match lookupAssoc st.sharedDataMap caller with
  | some id => if id ∈ st.alive then (⟨id, id⟩, st) else buildShared st caller
  | none => buildShared st caller

/-- Well-formedness of the cache state: every registered shared part was
allocated before `nextId`, and no allocation number is registered under two
distinct call sites. -/
def WF (st : GfxCacheState) : Prop :=
  (∀ p ∈ st.sharedDataMap, p.2 < st.nextId) ∧
  (∀ p ∈ st.sharedDataMap, ∀ q ∈ st.sharedDataMap, p.2 = q.2 → p.1 = q.1)

/-- Case analysis on `GenericDrawable::new`: either the call site hits a
live cached shared part and the state is untouched, or a fresh shared part
numbered `st.nextId` is built and registered. -/
theorem genericDrawableNew_spec (st : GfxCacheState) (x : ℕ) :
    (∃ i, lookupAssoc st.sharedDataMap x = some i ∧ i ∈ st.alive ∧
      genericDrawableNew st x = (⟨i, i⟩, st)) ∨
    genericDrawableNew st x = (⟨st.nextId, st.nextId⟩,
      ⟨(x, st.nextId) :: st.sharedDataMap, st.nextId :: st.alive, st.nextId + 1⟩) := by
  unfold genericDrawableNew
  cases hL : lookupAssoc st.sharedDataMap x with
  | none => right; rfl
  | some i =>
    dsimp only
    by_cases hA : i ∈ st.alive
    · left
      refine ⟨i, rfl, hA, ?_⟩
      rw [if_pos hA]
    · right
      rw [if_neg hA]
      rfl

theorem genericDrawableNew_fresh_hit (st : GfxCacheState) (c : ℕ) :
    (genericDrawableNew (⟨(c, st.nextId) :: st.sharedDataMap,
      st.nextId :: st.alive, st.nextId + 1⟩ : GfxCacheState) c).1 =
      BuiltDrawable.mk st.nextId st.nextId := by
  unfold genericDrawableNew
  rw [show lookupAssoc ((c, st.nextId) :: st.sharedDataMap) c = some st.nextId from by
    rw [lookupAssoc, if_pos rfl]]
  dsimp only
  rw [if_pos (List.mem_cons_self _ _)]

/-- C2: two `GenericDrawable::new` calls from the same call site, the second
made while the first call's shared part is still strongly referenced, return
the same (pointer-equal) shared part and pipeline object; and two calls made
from two distinct call sites always produce two distinct pipeline objects,
regardless of what the bindable-construction closures build. -/
theorem sharedPart_cache_call_site_identity (st : GfxCacheState) (c a b : ℕ)
    (hwf : WF st) (hne : a ≠ b) :
    (genericDrawableNew (genericDrawableNew st c).2 c).1 = (genericDrawableNew st c).1 ∧
    (genericDrawableNew (genericDrawableNew st a).2 b).1.pipelineId ≠
      (genericDrawableNew st a).1.pipelineId := by
  constructor
  · rcases genericDrawableNew_spec st c with ⟨i, hL, hA, hEq⟩ | hEq
    · rw [hEq]
      show (genericDrawableNew st c).1 = BuiltDrawable.mk i i
      rw [hEq]
    · rw [hEq]
      exact genericDrawableNew_fresh_hit st c
  · rcases genericDrawableNew_spec st a with ⟨i1, hL1, hA1, hEq1⟩ | hEq1
    · rw [hEq1]
      have hm1 : (a, i1) ∈ st.sharedDataMap := lookupAssoc_mem _ i1 a hL1
      have hi1 : i1 < st.nextId := hwf.1 _ hm1
      rcases genericDrawableNew_spec st b with ⟨i2, hL2, hA2, hEq2⟩ | hEq2
      · rw [hEq2]
        intro hcontra
        exact hne (hwf.2 (a, i1) hm1 (b, i2)
          (lookupAssoc_mem _ i2 b hL2) hcontra.symm)
      · rw [hEq2]
        intro hcontra
        exact absurd hcontra.symm (Nat.ne_of_lt hi1)
    · rw [hEq1]
      rcases genericDrawableNew_spec
          (⟨(a, st.nextId) :: st.sharedDataMap, st.nextId :: st.alive, st.nextId + 1⟩ :
            GfxCacheState) b with ⟨i2, hL2, hA2, hEq2⟩ | hEq2
      · rw [hEq2]
        rw [lookupAssoc, if_neg hne] at hL2
        have hi2 : i2 < st.nextId := hwf.1 _ (lookupAssoc_mem _ i2 b hL2)
        exact Nat.ne_of_lt hi2
      · rw [hEq2]
        exact Nat.succ_ne_self st.nextId

/-- Witness for C2 on the empty cache state with call sites `7`, `0`, `1`. -/
theorem sharedPart_cache_call_site_identity_witness :
    (genericDrawableNew (genericDrawableNew ⟨[], [], 0⟩ 7).2 7).1 =
      (genericDrawableNew ⟨[], [], 0⟩ 7).1 ∧
    (genericDrawableNew (genericDrawableNew ⟨[], [], 0⟩ 0).2 1).1.pipelineId ≠
      (genericDrawableNew ⟨[], [], 0⟩ 0).1.pipelineId :=
  sharedPart_cache_call_site_identity ⟨[], [], 0⟩ 7 0 1
    ⟨fun p hp => absurd hp (List.not_mem_nil p),
      fun p hp => absurd hp (List.not_mem_nil p)⟩ (by decide)

end DrawCache

namespace TexCache

/-- The content-identifying fields hashed into the texture cache key by
`Texture::new_inner` (`src/graphics/bindable/texture.rs` lines 146-268):
source file name, image extent, and optional array-layer count.  Identical
fields produce the identical `u64` hash used as the `HashMap` key. -/
structure TexKey where
  sourceFileName : String
  extent : ℕ × ℕ × ℕ
  arrayLayers : Option ℕ
deriving DecidableEq

/-- The `TEXTURE_CACHE` state: key to texture allocation number (a weak
reference), the set of texture numbers that still have a strong owner, and
the next allocation number. -/
structure TexCacheState where
  cache : List (TexKey × ℕ)
  alive : List ℕ
  nextId : ℕ
deriving DecidableEq

/-- The construction arm of `Texture::new_inner`: decode and upload the
image, build view, layout and descriptor set, and register the fresh texture
in `TEXTURE_CACHE` under its key. -/
def buildTexture (st : TexCacheState) (k : TexKey) : ℕ × TexCacheState :=
  (st.nextId, ⟨(k, st.nextId) :: st.cache, st.nextId :: st.alive, st.nextId + 1⟩)

/-- `Texture::new_inner`: look the key's hash up in `TEXTURE_CACHE`; when the
cached weak reference upgrades, return that `Arc<Texture>` unchanged,
otherwise construct, upload and register a fresh texture. -/
def textureNewInner (st : TexCacheState) (k : TexKey) : ℕ × TexCacheState :=
  match lookupAssoc st.cache k with
  | some id => if id ∈ st.alive then (id, st) else buildTexture st k
  | none => buildTexture st k

/-- C7: calling the texture load operation twice with identical
content-identifying arguments, while a strong reference from the first call
is still live, returns the reference-equal texture (same allocation number)
and performs no second upload (the cache state is unchanged by the second
call). -/
theorem texture_load_idempotent (st : TexCacheState) (k : TexKey) :
    textureNewInner (textureNewInner st k).2 k = textureNewInner st k := by
  unfold textureNewInner
  cases hL : lookupAssoc st.cache k with
  | none =>
    dsimp only [buildTexture]
    rw [show lookupAssoc ((k, st.nextId) :: st.cache) k = some st.nextId from by
      rw [lookupAssoc, if_pos rfl]]
    dsimp only
    rw [if_pos (List.mem_cons_self _ _)]
  | some i =>
    dsimp only
    by_cases hA : i ∈ st.alive
    · rw [if_pos hA, hL]
      dsimp only
      rw [if_pos hA]
    · rw [if_neg hA]
      dsimp only [buildTexture]
      rw [show lookupAssoc ((k, st.nextId) :: st.cache) k = some st.nextId from by
        rw [lookupAssoc, if_pos rfl]]
      dsimp only
      rw [if_pos (List.mem_cons_self _ _)]

end TexCache

namespace Render

/-- One command recorded into the frame's primary command buffer by
`Graphics::recreate_command_buffer` (`src/graphics.rs` lines 281-358). -/
inductive RenderCmd where
  | beginMainRenderPass
  | setViewport
  | bindBindable (id : ℕ)
  | bindPipeline (id : ℕ)
  | drawIndexed (indexCount : ℕ)
  | nextSubpass
  | guiCommands
  | endMainRenderPass
deriving DecidableEq

/-- What the recorder reads from one queued drawable: its own bindables, its
shared part's bindables, its pipeline, and its index count (bindables and
pipelines named by identity numbers). -/
structure DrawableDesc where
  bindables : List ℕ
  sharedBindables : List ℕ
  pipelineId : ℕ
  indexCount : ℕ
deriving DecidableEq

/-- The renderer state touched by `recreate_command_buffer`: the draw queue
and the retained main command buffer. -/
structure FrameState where
  drawQueue : List DrawableDesc
  mainCommandBuffer : Option (List RenderCmd)
deriving DecidableEq

/-- `Graphics::recreate_command_buffer`: begin the render pass, set the
viewport, then for every queued drawable in enqueue order bind its own
bindables, then its shared bindables, then the pipeline, then issue one
indexed draw; truncate the draw queue to length 0; move to the GUI subpass,
execute the GUI commands, end the render pass, and retain the built buffer. -/
def recreateCommandBuffer (st : FrameState) : FrameState :=
  let cmds := st.drawQueue.foldl
    (fun acc d => acc ++ d.bindables.map RenderCmd.bindBindable
      ++ d.sharedBindables.map RenderCmd.bindBindable
      ++ [RenderCmd.bindPipeline d.pipelineId, RenderCmd.drawIndexed d.indexCount])
    [RenderCmd.beginMainRenderPass, RenderCmd.setViewport]
  ⟨[], some (cmds ++ [RenderCmd.nextSubpass, RenderCmd.guiCommands,
    RenderCmd.endMainRenderPass])⟩

/-- Specification of the command span one drawable contributes: instance
bindables first, then shared bindables, then pipeline bind, then exactly one
indexed draw. -/
def drawCmds (d : DrawableDesc) : List RenderCmd :=
  d.bindables.map RenderCmd.bindBindable ++ d.sharedBindables.map RenderCmd.bindBindable
    ++ [RenderCmd.bindPipeline d.pipelineId, RenderCmd.drawIndexed d.indexCount]

theorem foldl_record_eq_flatMap (l : List DrawableDesc) (acc : List RenderCmd) :
    l.foldl
      (fun acc d => acc ++ d.bindables.map RenderCmd.bindBindable
        ++ d.sharedBindables.map RenderCmd.bindBindable
        ++ [RenderCmd.bindPipeline d.pipelineId, RenderCmd.drawIndexed d.indexCount])
      acc = acc ++ l.flatMap drawCmds := by
  induction l generalizing acc with
  | nil => simp
  | cons d l ih =>
    rw [List.foldl_cons, ih, List.flatMap_cons]
    simp [drawCmds]

/-- C8: recording a frame's command buffer processes the queued drawables in
enqueue order; each drawable contributes its instance bindables, then its
shared bindables, then a pipeline bind, then exactly one indexed draw; and
the draw queue is left empty (drained exactly once) after recording. -/
theorem recreateCommandBuffer_spec (st : FrameState) :
    recreateCommandBuffer st =
      ⟨[], some ([RenderCmd.beginMainRenderPass, RenderCmd.setViewport]
        ++ st.drawQueue.flatMap drawCmds
        ++ [RenderCmd.nextSubpass, RenderCmd.guiCommands,
          RenderCmd.endMainRenderPass])⟩ := by
  unfold recreateCommandBuffer
  rw [foldl_record_eq_flatMap]

end Render
